import Mathlib

/-!
Verification development for the incremental capture-ingestion engine of
`src/demo.rs` (DemoManager / OpenDemo / demo_loop).

The frame decoder (`tf_demo_parser` + `bitbuffer`) is an external
collaborator; it is modelled as an oracle (`Decoder`) with the interface the
code consumes: header decode, next-frame decode, and the handler-state
updates.  Positions are bit offsets, as in the source (`stream.pos()` /
`packets.pos()` are bit positions; a buffer of `n` bytes holds `8 * n` bits).
File paths are modelled as opaque identifiers carrying an optional extension
token; the capture extension (`dem` in the source) is the token `demExt`.
The filesystem visible to one cycle is a snapshot `FPath → Option Bytes`
(`none` models a failing `metadata`/`open` call).  Dispatched frames are
collected in lists; log output is not modelled, but the distinct log
classification of a cycle's decode stop (`StopReason`) is kept, since the
source distinguishes those arms.
-/

namespace DemoSpec

/-- Byte strings, as lists of naturals. -/
abbrev Bytes := List Nat

/-- Opaque model of a filesystem path: an identifier plus an optional
extension token (the source checks `path.extension() == "dem"`). -/
structure FPath where
  pathId : Nat
  ext : Option Nat
deriving DecidableEq

/-- The token standing for the capture file extension (the string `dem`
in the source). -/
def demExt : Nat := 100

/-- Result of the header-decode entry point (`Header::read`):
success with a new bit position, `BitError::NotEnoughData`, or any other
(hard) error. -/
inductive HeaderResult (H : Type) where
  | ok (h : H) (pos : Nat)
  | needData (requested bitsLeft : Nat)
  | err
deriving DecidableEq

/-- Result of the next-frame entry point (`RawPacketStream::next`):
a decoded packet and the stream's new bit position, a clean end
(`Ok(None)`), `NotEnoughData`, or any other (hard) error. -/
inductive FrameResult (F : Type) where
  | frame (f : F) (pos : Nat)
  | done
  | needData (requested bitsLeft : Nat)
  | err
deriving DecidableEq

/-- The external frame-decoder collaborator, as consumed by `demo.rs`:
`decode_header` is `Header::read`, `decode_frame` is
`RawPacketStream::next` against the handler state, `handle_header` and
`handle_packet` are the `DemoHandler` state updates, and `init` is
`DemoHandler::with_analyser(GameStateAnalyser::new())`. -/
structure Decoder (H F S : Type) where
  decode_header : Bytes → Nat → HeaderResult H
  decode_frame : Bytes → Nat → S → FrameResult F
  handle_header : S → H → S
  handle_packet : S → F → S
  init : S

/-- Why a decode pass over the buffer stopped.  The source logs these
arms distinctly (warn for not-enough-bits, error for hard errors);
`ranOut` is the fuel bound of the embedding, shown unreachable for valid
decoders. -/
inductive StopReason where
  | ranOut
  | cleanEnd
  | needData
  | hardErr
deriving DecidableEq

/-- `OpenDemo` from the source: one capture session's path, optional
decoded header, handler (decoder) state, accumulated bytes, and bit
cursor. -/
structure OpenDemo (H F S : Type) where
  file_path : FPath
  header : Option H
  handler : S
  bytes : Bytes
  offset : Nat
deriving DecidableEq

/-- `DemoManager` from the source: retired sessions plus at most one
current session. -/
structure DemoManager (H F S : Type) where
  previous_demos : List (OpenDemo H F S)
  current_demo : Option (OpenDemo H F S)
deriving DecidableEq

variable {H F S : Type}

/-- `DemoManager::new`. -/
def DemoManager.new : DemoManager H F S :=
  { previous_demos := [], current_demo := none }

/-- `DemoManager::new_demo`: retire the current session (if any) to the
tail of `previous_demos` and install a fresh session on `path`. -/
def DemoManager.new_demo (m : DemoManager H F S) (D : Decoder H F S)
    (path : FPath) : DemoManager H F S :=
  let prev :=
    match m.current_demo with
    | some old => m.previous_demos ++ [old]
    | none => m.previous_demos
  { previous_demos := prev
    current_demo := some
      { file_path := path, header := none, handler := D.init
        bytes := [], offset := 0 } }

/-- `DemoManager::current_demo_path`. -/
def DemoManager.current_demo_path (m : DemoManager H F S) : Option FPath :=
  m.current_demo.map (fun d => d.file_path)

/-- Result of one `process_next_chunk` call: the mutated session, the
packets dispatched to `handle_packet`, and how the pass stopped. -/
structure ChunkRes (H F S : Type) where
  demo : OpenDemo H F S
  frames : List F
  reason : StopReason
deriving DecidableEq

/-- Result of the packet loop inside `process_next_chunk`: final bit
position, final handler state, packets dispatched, stop classification. -/
structure LoopRes (F S : Type) where
  off : Nat
  st : S
  frames : List F
  reason : StopReason
deriving DecidableEq

/-- The `loop` over `packets.next(...)` in `process_next_chunk`.  Each
decoded packet is dispatched (`handle_packet`), folded into the handler
state, and the cursor is committed to the stream position.  `Ok(None)`,
`NotEnoughData` and hard errors all end the loop with the cursor at the
last committed position.  The source loop is unbounded; the embedding
carries fuel, with `ranOut` proved unreachable for valid decoders. -/
def frame_loop (D : Decoder H F S) (bytes : Bytes) :
    Nat → Nat → S → LoopRes F S
  | 0, off, st => { off := off, st := st, frames := [], reason := .ranOut }
  | fuel + 1, off, st =>
    match D.decode_frame bytes off st with
    | .frame f p =>
      let st1 := D.handle_packet st f
      let r := frame_loop D bytes fuel p st1
      { off := r.off, st := r.st, frames := f :: r.frames, reason := r.reason }
    | .done => { off := off, st := st, frames := [], reason := .cleanEnd }
    | .needData _ _ => { off := off, st := st, frames := [], reason := .needData }
    | .err => { off := off, st := st, frames := [], reason := .hardErr }

/-- `OpenDemo::process_next_chunk`: decode the header at the cursor if it
is still absent (not-enough-bits or a hard error both end the cycle with
the session untouched, only logged differently), then run the packet
loop from the cursor. -/
def process_next_chunk (D : Decoder H F S) (d : OpenDemo H F S) :
    ChunkRes H F S :=
  match d.header with
  | none =>
    match D.decode_header d.bytes d.offset with
    | .ok h p =>
      let st := D.handle_header d.handler h
      let r := frame_loop D d.bytes (8 * d.bytes.length + 1) p st
      { demo := { d with header := some h, handler := r.st, offset := r.off }
        frames := r.frames, reason := r.reason }
    | .needData _ _ => { demo := d, frames := [], reason := .needData }
    | .err => { demo := d, frames := [], reason := .hardErr }
  | some _ =>
    let r := frame_loop D d.bytes (8 * d.bytes.length + 1) d.offset d.handler
    { demo := { d with handler := r.st, offset := r.off }
      frames := r.frames, reason := r.reason }

/-- The `std::io` failures `OpenDemo::read_next_bytes` can return: a
failing `metadata`/`open`/`read` call, or the explicit `UnexpectedEof`
built when the file shortened. -/
inductive DemoIOError where
  | fileMissing
  | shortened
deriving DecidableEq

/-- `OpenDemo::read_next_bytes` against one filesystem snapshot: stat the
file; error if it shrank below the buffered length; no-op if unchanged;
otherwise seek to the buffered length, append the tail, and (when bytes
were actually read) process the grown buffer.  The returned session is
the state of `self` when the call returns (the source mutates in place),
paired with the dispatched packets and the returned `io::Result`. -/
def OpenDemo.read_next_bytes (D : Decoder H F S) (fs : FPath → Option Bytes)
    (d : OpenDemo H F S) : OpenDemo H F S × List F × Option DemoIOError :=
  match fs d.file_path with
  | none => (d, [], some .fileMissing)
  | some c =>
    if c.length < d.bytes.length then
      (d, [], some .shortened)
    else if c.length = d.bytes.length then
      (d, [], none)
    else
      let read_bytes := c.length - d.bytes.length
      let d1 : OpenDemo H F S :=
        { d with bytes := d.bytes ++ c.drop d.bytes.length }
      if 0 < read_bytes then
        let r := process_next_chunk D d1
        (r.demo, r.frames, none)
      else
        (d1, [], none)

/-- `DemoManager::read_next_bytes`: delegate to the current session if
there is one; on any returned error, log and abandon it
(`current_demo = None`); errors never propagate further. -/
def DemoManager.read_next_bytes (m : DemoManager H F S) (D : Decoder H F S)
    (fs : FPath → Option Bytes) : DemoManager H F S × List F :=
  match m.current_demo with
  | none => (m, [])
  | some d =>
    let r := OpenDemo.read_next_bytes D fs d
    match r.2.2 with
    | some _ => ({ m with current_demo := none }, r.2.1)
    | none => ({ m with current_demo := some r.1 }, r.2.1)

/-- The watcher event kinds the loop distinguishes: `Create(_)`,
`Modify(ModifyKind::Data(_))`, and everything else. -/
inductive EventKind where
  | create
  | modifyData
  | otherEvent
deriving DecidableEq

/-- One iteration's input to the driving loop: a watcher event carrying
its path list, the receive timeout, or the channel having disconnected. -/
inductive DemoSignal where
  | event (kind : EventKind) (paths : List FPath)
  | timeout
  | disconnected
deriving DecidableEq

/-- Outcome of one iteration of `demo_loop`: continue with the updated
manager (and the packets dispatched during the iteration), or the
iteration panicked, terminating the loop and the process. -/
inductive StepRes (H F S : Type) where
  | next (m : DemoManager H F S) (frames : List F)
  | panicked
deriving DecidableEq

/-- The body of the `loop` in `demo_loop`, for one received signal
against one filesystem snapshot.  On an event the source evaluates
`&event.paths[0]` before inspecting the kind, so an event with no path
panics whatever its kind; `Create` on a capture-extension path starts a
new session; `Modify(Data)` advances the tracked session, or starts (and
immediately advances) a session on a different capture-extension path;
other kinds are ignored; a receive timeout advances unconditionally; a
disconnected channel panics. -/
def demo_loop_step (D : Decoder H F S) (fs : FPath → Option Bytes)
    (m : DemoManager H F S) : DemoSignal → StepRes H F S
  | .event kind paths =>
    match paths.head? with
    | none => .panicked
    | some path =>
      match kind with
      | .create =>
        if (path.ext.map (fun e => decide (e = demExt))).getD false then
          .next (m.new_demo D path) []
        else
          .next m []
      | .modifyData =>
        if (m.current_demo_path.map (fun p => decide (p = path))).getD false then
          let r := m.read_next_bytes D fs
          .next r.1 r.2
        else if (path.ext.map (fun e => decide (e = demExt))).getD false then
          let m1 := m.new_demo D path
          let r := m1.read_next_bytes D fs
          .next r.1 r.2
        else
          .next m []
      | .otherEvent => .next m []
  | .timeout =>
    let r := m.read_next_bytes D fs
    .next r.1 r.2
  | .disconnected => .panicked

/-- A filesystem snapshot holding exactly one file. -/
def singleFile (pa : FPath) (c : Bytes) : FPath → Option Bytes :=
  fun q => if q = pa then some c else none

/-- Drive the loop with `Timeout` signals only (notification delivery
entirely suppressed), the watched file holding the listed contents at the
successive timeouts.  Collects all dispatched packets. -/
def run_timeouts (D : Decoder H F S) (pa : FPath) (m : DemoManager H F S) :
    List Bytes → DemoManager H F S × List F
  | [] => (m, [])
  | c :: cs =>
    match demo_loop_step D (singleFile pa c) m .timeout with
    | .next m1 fr =>
      let r := run_timeouts D pa m1 cs
      (r.1, fr ++ r.2)
    | .panicked => (m, [])

/-- A fresh session as built by `new_demo`. -/
def fresh_demo (D : Decoder H F S) (pa : FPath) : OpenDemo H F S :=
  { file_path := pa, header := none, handler := D.init, bytes := [], offset := 0 }

/-- Reference (batch) decode: process the full contents `c` in a single
chunk pass over a fresh session.  `(batch_decode D pa c).frames` is the
list of complete frames of a capture file with contents `c`. -/
def batch_decode (D : Decoder H F S) (pa : FPath) (c : Bytes) : ChunkRes H F S :=
  process_next_chunk D { fresh_demo D pa with bytes := c }

/-- `a` grows into `b`: `b` extends `a` on the right (append-only file
growth between two snapshots). -/
def Grows (a b : Bytes) : Prop := ∃ t, a ++ t = b

/-- Each snapshot in the list grows into the next. -/
def GrowthChain : List Bytes → Prop
  | [] => True
  | [_] => True
  | a :: b :: r => Grows a b ∧ GrowthChain (b :: r)

/-- The last snapshot of a nonempty trace, with a default head. -/
def last1 (c : Bytes) : List Bytes → Bytes
  | [] => c
  | d :: r => last1 d r

/-- Well-formedness of the decoder oracle, true of the bit-stream
decoders the source uses: a successful decode consumes at least one bit
and never reports a position beyond the buffer, and a successful decode
is stable under growing the buffer on the right (the idempotence the
interface contract demands). -/
structure ValidDecoder (D : Decoder H F S) : Prop where
  header_pos : ∀ b off h p, D.decode_header b off = .ok h p →
    off < p ∧ p ≤ 8 * b.length
  frame_pos : ∀ b off st f p, D.decode_frame b off st = .frame f p →
    off < p ∧ p ≤ 8 * b.length
  header_grow : ∀ a b off h p, Grows a b → D.decode_header a off = .ok h p →
    D.decode_header b off = .ok h p
  frame_grow : ∀ a b off st f p, Grows a b → D.decode_frame a off st = .frame f p →
    D.decode_frame b off st = .frame f p

/-- A chunk-processing result whose session can still make progress on a
grown buffer: either the header is still absent (nothing was committed,
the next cycle retries from scratch), or the pass did not stop on a hard
error. -/
def Resumable (B : ChunkRes H F S) : Prop :=
  B.demo.header = none ∨ B.reason ≠ .hardErr

instance resumableDecidable [DecidableEq H] (B : ChunkRes H F S) :
    Decidable (Resumable B) :=
  decidable_of_iff (B.demo.header = none ∨ B.reason ≠ .hardErr) Iff.rfl

theorem Grows.rfl (a : Bytes) : Grows a a := ⟨[], List.append_nil a⟩

theorem Grows.length_le {a b : Bytes} (h : Grows a b) : a.length ≤ b.length := by
  obtain ⟨t, rfl⟩ := h
  simp

theorem Grows.append_drop {a b : Bytes} (h : Grows a b) :
    a ++ b.drop a.length = b := by
  obtain ⟨t, rfl⟩ := h
  simp

theorem Grows.eq_of_length {a b : Bytes} (h : Grows a b)
    (hl : b.length = a.length) : a = b := by
  obtain ⟨t, rfl⟩ := h
  simp only [List.length_append] at hl
  have : t = [] := List.eq_nil_of_length_eq_zero (by omega)
  simp [this]

theorem process_next_chunk_bytes (D : Decoder H F S) (d : OpenDemo H F S) :
    (process_next_chunk D d).demo.bytes = d.bytes := by
  unfold process_next_chunk
  cases hh : d.header with
  | none => cases hd : D.decode_header d.bytes d.offset <;> rfl
  | some h => rfl

theorem process_next_chunk_path (D : Decoder H F S) (d : OpenDemo H F S) :
    (process_next_chunk D d).demo.file_path = d.file_path := by
  unfold process_next_chunk
  cases hh : d.header with
  | none => cases hd : D.decode_header d.bytes d.offset <;> rfl
  | some h => rfl

theorem batch_decode_bytes (D : Decoder H F S) (pa : FPath) (c : Bytes) :
    (batch_decode D pa c).demo.bytes = c := by
  unfold batch_decode
  rw [process_next_chunk_bytes]

theorem batch_decode_path (D : Decoder H F S) (pa : FPath) (c : Bytes) :
    (batch_decode D pa c).demo.file_path = pa := by
  unfold batch_decode
  rw [process_next_chunk_path]
  rfl

theorem frame_loop_frame {D : Decoder H F S} {b : Bytes} {off : Nat} {st : S}
    {f : F} {p : Nat} (n : Nat) (hf : D.decode_frame b off st = .frame f p) :
    frame_loop D b (n + 1) off st =
      { off := (frame_loop D b n p (D.handle_packet st f)).off
        st := (frame_loop D b n p (D.handle_packet st f)).st
        frames := f :: (frame_loop D b n p (D.handle_packet st f)).frames
        reason := (frame_loop D b n p (D.handle_packet st f)).reason } := by
  rw [frame_loop, hf]

theorem frame_loop_done {D : Decoder H F S} {b : Bytes} {off : Nat} {st : S}
    (n : Nat) (hf : D.decode_frame b off st = .done) :
    frame_loop D b (n + 1) off st =
      { off := off, st := st, frames := [], reason := .cleanEnd } := by
  rw [frame_loop, hf]

theorem frame_loop_needData {D : Decoder H F S} {b : Bytes} {off : Nat} {st : S}
    {r l : Nat} (n : Nat) (hf : D.decode_frame b off st = .needData r l) :
    frame_loop D b (n + 1) off st =
      { off := off, st := st, frames := [], reason := .needData } := by
  rw [frame_loop, hf]

theorem frame_loop_err {D : Decoder H F S} {b : Bytes} {off : Nat} {st : S}
    (n : Nat) (hf : D.decode_frame b off st = .err) :
    frame_loop D b (n + 1) off st =
      { off := off, st := st, frames := [], reason := .hardErr } := by
  rw [frame_loop, hf]

theorem frame_loop_off {D : Decoder H F S} (hD : ValidDecoder D) (b : Bytes) :
    ∀ fuel off st, off ≤ 8 * b.length →
      off ≤ (frame_loop D b fuel off st).off ∧
      (frame_loop D b fuel off st).off ≤ 8 * b.length := by
  intro fuel
  induction fuel with
  | zero => intro off st h; exact ⟨Nat.le_refl _, h⟩
  | succ n ih =>
    intro off st h
    simp only [frame_loop]
    cases hf : D.decode_frame b off st with
    | frame f p =>
      obtain ⟨h1, h2⟩ := hD.frame_pos b off st f p hf
      have hr := ih p (D.handle_packet st f) h2
      exact ⟨Nat.le_trans (Nat.le_of_lt h1) hr.1, hr.2⟩
    | done => exact ⟨Nat.le_refl _, h⟩
    | needData r l => exact ⟨Nat.le_refl _, h⟩
    | err => exact ⟨Nat.le_refl _, h⟩

theorem frame_loop_fuel {D : Decoder H F S} (hD : ValidDecoder D) (b : Bytes) :
    ∀ f1 f2 off st, off ≤ 8 * b.length → 8 * b.length - off < f1 →
      8 * b.length - off < f2 →
      frame_loop D b f1 off st = frame_loop D b f2 off st := by
  intro f1
  induction f1 with
  | zero => intro f2 off st h h1 h2; omega
  | succ n ih =>
    intro f2 off st h h1 h2
    cases f2 with
    | zero => omega
    | succ m =>
      cases hf : D.decode_frame b off st with
      | frame f p =>
        obtain ⟨hp1, hp2⟩ := hD.frame_pos b off st f p hf
        rw [frame_loop_frame n hf, frame_loop_frame m hf,
          ih m p (D.handle_packet st f) hp2 (by omega) (by omega)]
      | done => rw [frame_loop_done n hf, frame_loop_done m hf]
      | needData r l => rw [frame_loop_needData n hf, frame_loop_needData m hf]
      | err => rw [frame_loop_err n hf, frame_loop_err m hf]

theorem frame_loop_no_ranOut {D : Decoder H F S} (hD : ValidDecoder D) (b : Bytes) :
    ∀ fuel off st, off ≤ 8 * b.length → 8 * b.length - off < fuel →
      (frame_loop D b fuel off st).reason ≠ .ranOut := by
  intro fuel
  induction fuel with
  | zero => intro off st h h1; omega
  | succ n ih =>
    intro off st h h1
    simp only [frame_loop]
    cases hf : D.decode_frame b off st with
    | frame f p =>
      obtain ⟨hp1, hp2⟩ := hD.frame_pos b off st f p hf
      exact ih p (D.handle_packet st f) hp2 (by omega)
    | done => simp
    | needData r l => simp
    | err => simp

theorem frame_loop_resume {D : Decoder H F S} (hD : ValidDecoder D)
    {a b : Bytes} (hg : Grows a b) :
    ∀ f1 off st, off ≤ 8 * a.length →
      ((frame_loop D a f1 off st).reason = .cleanEnd ∨
       (frame_loop D a f1 off st).reason = .needData) →
      ∀ f2, 8 * b.length - off < f2 →
      frame_loop D b f2 off st =
        { off := (frame_loop D b (8 * b.length + 1)
            (frame_loop D a f1 off st).off (frame_loop D a f1 off st).st).off
          st := (frame_loop D b (8 * b.length + 1)
            (frame_loop D a f1 off st).off (frame_loop D a f1 off st).st).st
          frames := (frame_loop D a f1 off st).frames ++
            (frame_loop D b (8 * b.length + 1)
              (frame_loop D a f1 off st).off (frame_loop D a f1 off st).st).frames
          reason := (frame_loop D b (8 * b.length + 1)
            (frame_loop D a f1 off st).off (frame_loop D a f1 off st).st).reason } := by
  have hlen : a.length ≤ b.length := hg.length_le
  intro f1
  induction f1 with
  | zero =>
    intro off st h hr f2 h2
    simp [frame_loop] at hr
  | succ n ih =>
    intro off st h hr f2 h2
    cases f2 with
    | zero => omega
    | succ m =>
      have hab : 8 * a.length ≤ 8 * b.length := by omega
      cases hf : D.decode_frame a off st with
      | frame f p =>
        obtain ⟨hp1, hp2⟩ := hD.frame_pos a off st f p hf
        have hfb := hD.frame_grow a b off st f p hg hf
        rw [frame_loop_frame n hf] at hr
        rw [frame_loop_frame n hf, frame_loop_frame m hfb]
        simp only at hr
        have hm : 8 * b.length - p < m := by omega
        have hrec := ih p (D.handle_packet st f) hp2 hr m hm
        rw [hrec]
        simp
      | done =>
        rw [frame_loop_done n hf] at hr
        rw [frame_loop_done n hf]
        rw [frame_loop_fuel hD b (m + 1) (8 * b.length + 1) off st
          (Nat.le_trans h hab) h2 (by omega)]
        simp
      | needData r l =>
        rw [frame_loop_needData n hf] at hr
        rw [frame_loop_needData n hf]
        rw [frame_loop_fuel hD b (m + 1) (8 * b.length + 1) off st
          (Nat.le_trans h hab) h2 (by omega)]
        simp
      | err =>
        rw [frame_loop_err n hf] at hr
        simp at hr

theorem process_next_chunk_some {D : Decoder H F S} {d : OpenDemo H F S}
    {h : H} (hh : d.header = some h) :
    process_next_chunk D d =
      { demo := { d with
          handler := (frame_loop D d.bytes (8 * d.bytes.length + 1) d.offset d.handler).st
          offset := (frame_loop D d.bytes (8 * d.bytes.length + 1) d.offset d.handler).off }
        frames := (frame_loop D d.bytes (8 * d.bytes.length + 1) d.offset d.handler).frames
        reason := (frame_loop D d.bytes (8 * d.bytes.length + 1) d.offset d.handler).reason } := by
  unfold process_next_chunk
  rw [hh]

theorem process_next_chunk_hdr_ok {D : Decoder H F S} {d : OpenDemo H F S}
    {h : H} {p : Nat} (hh : d.header = none)
    (hd : D.decode_header d.bytes d.offset = .ok h p) :
    process_next_chunk D d =
      { demo := { d with
          header := some h
          handler := (frame_loop D d.bytes (8 * d.bytes.length + 1) p
            (D.handle_header d.handler h)).st
          offset := (frame_loop D d.bytes (8 * d.bytes.length + 1) p
            (D.handle_header d.handler h)).off }
        frames := (frame_loop D d.bytes (8 * d.bytes.length + 1) p
          (D.handle_header d.handler h)).frames
        reason := (frame_loop D d.bytes (8 * d.bytes.length + 1) p
          (D.handle_header d.handler h)).reason } := by
  unfold process_next_chunk
  rw [hh, hd]

theorem process_next_chunk_hdr_needData {D : Decoder H F S} {d : OpenDemo H F S}
    {r l : Nat} (hh : d.header = none)
    (hd : D.decode_header d.bytes d.offset = .needData r l) :
    process_next_chunk D d = { demo := d, frames := [], reason := .needData } := by
  unfold process_next_chunk
  rw [hh, hd]

theorem process_next_chunk_hdr_err {D : Decoder H F S} {d : OpenDemo H F S}
    (hh : d.header = none) (hd : D.decode_header d.bytes d.offset = .err) :
    process_next_chunk D d = { demo := d, frames := [], reason := .hardErr } := by
  unfold process_next_chunk
  rw [hh, hd]

theorem read_next_bytes_missing {D : Decoder H F S} {fs : FPath → Option Bytes}
    {d : OpenDemo H F S} (hfs : fs d.file_path = none) :
    OpenDemo.read_next_bytes D fs d = (d, [], some .fileMissing) := by
  unfold OpenDemo.read_next_bytes
  rw [hfs]

theorem read_next_bytes_shrunk {D : Decoder H F S} {fs : FPath → Option Bytes}
    {d : OpenDemo H F S} {c : Bytes} (hfs : fs d.file_path = some c)
    (hlt : c.length < d.bytes.length) :
    OpenDemo.read_next_bytes D fs d = (d, [], some .shortened) := by
  unfold OpenDemo.read_next_bytes
  rw [hfs]
  dsimp only
  rw [if_pos hlt]

theorem read_next_bytes_same {D : Decoder H F S} {fs : FPath → Option Bytes}
    {d : OpenDemo H F S} {c : Bytes} (hfs : fs d.file_path = some c)
    (heq : c.length = d.bytes.length) :
    OpenDemo.read_next_bytes D fs d = (d, [], none) := by
  unfold OpenDemo.read_next_bytes
  rw [hfs]
  dsimp only
  rw [if_neg (by omega), if_pos heq]

theorem read_next_bytes_growth {D : Decoder H F S} {fs : FPath → Option Bytes}
    {d : OpenDemo H F S} {c : Bytes} (hfs : fs d.file_path = some c)
    (hlt : d.bytes.length < c.length) :
    OpenDemo.read_next_bytes D fs d =
      ((process_next_chunk D { d with bytes := d.bytes ++ c.drop d.bytes.length }).demo,
       (process_next_chunk D { d with bytes := d.bytes ++ c.drop d.bytes.length }).frames,
       none) := by
  unfold OpenDemo.read_next_bytes
  rw [hfs]
  dsimp only
  rw [if_neg (by omega), if_neg (by omega), if_pos (show 0 < c.length - d.bytes.length by omega)]

theorem manager_read_none {D : Decoder H F S} {fs : FPath → Option Bytes}
    {m : DemoManager H F S} (hm : m.current_demo = none) :
    m.read_next_bytes D fs = (m, []) := by
  unfold DemoManager.read_next_bytes
  rw [hm]

theorem manager_read_err {D : Decoder H F S} {fs : FPath → Option Bytes}
    {m : DemoManager H F S} {d : OpenDemo H F S} {e : DemoIOError}
    (hm : m.current_demo = some d)
    (he : (OpenDemo.read_next_bytes D fs d).2.2 = some e) :
    m.read_next_bytes D fs =
      ({ m with current_demo := none }, (OpenDemo.read_next_bytes D fs d).2.1) := by
  unfold DemoManager.read_next_bytes
  rw [hm]
  simp only [he]

theorem manager_read_ok {D : Decoder H F S} {fs : FPath → Option Bytes}
    {m : DemoManager H F S} {d : OpenDemo H F S}
    (hm : m.current_demo = some d)
    (he : (OpenDemo.read_next_bytes D fs d).2.2 = none) :
    m.read_next_bytes D fs =
      ({ m with current_demo := some (OpenDemo.read_next_bytes D fs d).1 },
       (OpenDemo.read_next_bytes D fs d).2.1) := by
  unfold DemoManager.read_next_bytes
  rw [hm]
  simp only [he]

theorem process_next_chunk_off {D : Decoder H F S} (hD : ValidDecoder D)
    (d : OpenDemo H F S) (h : d.offset ≤ 8 * d.bytes.length) :
    d.offset ≤ (process_next_chunk D d).demo.offset ∧
    (process_next_chunk D d).demo.offset ≤ 8 * d.bytes.length := by
  cases hh : d.header with
  | none =>
    cases hd : D.decode_header d.bytes d.offset with
    | ok hv p =>
      obtain ⟨hp1, hp2⟩ := hD.header_pos d.bytes d.offset hv p hd
      rw [process_next_chunk_hdr_ok hh hd]
      have := frame_loop_off hD d.bytes (8 * d.bytes.length + 1) p
        (D.handle_header d.handler hv) hp2
      exact ⟨Nat.le_trans (Nat.le_of_lt hp1) this.1, this.2⟩
    | needData r l =>
      rw [process_next_chunk_hdr_needData hh hd]
      exact ⟨Nat.le_refl _, h⟩
    | err =>
      rw [process_next_chunk_hdr_err hh hd]
      exact ⟨Nat.le_refl _, h⟩
  | some hv =>
    rw [process_next_chunk_some hh]
    exact frame_loop_off hD d.bytes (8 * d.bytes.length + 1) d.offset d.handler h

theorem process_next_chunk_no_ranOut {D : Decoder H F S} (hD : ValidDecoder D)
    (d : OpenDemo H F S) (h : d.offset ≤ 8 * d.bytes.length) :
    (process_next_chunk D d).reason ≠ .ranOut := by
  cases hh : d.header with
  | none =>
    cases hd : D.decode_header d.bytes d.offset with
    | ok hv p =>
      obtain ⟨hp1, hp2⟩ := hD.header_pos d.bytes d.offset hv p hd
      rw [process_next_chunk_hdr_ok hh hd]
      exact frame_loop_no_ranOut hD d.bytes (8 * d.bytes.length + 1) p
        (D.handle_header d.handler hv) hp2 (by omega)
    | needData r l =>
      rw [process_next_chunk_hdr_needData hh hd]
      simp
    | err =>
      rw [process_next_chunk_hdr_err hh hd]
      simp
  | some hv =>
    rw [process_next_chunk_some hh]
    exact frame_loop_no_ranOut hD d.bytes (8 * d.bytes.length + 1) d.offset
      d.handler h (by omega)

theorem batch_nil {D : Decoder H F S} (hD : ValidDecoder D) (pa : FPath) :
    (batch_decode D pa []).demo = fresh_demo D pa ∧
    (batch_decode D pa []).frames = [] ∧
    Resumable (batch_decode D pa []) := by
  have hb : ({ fresh_demo D pa with bytes := ([] : Bytes) } : OpenDemo H F S) =
      fresh_demo D pa := rfl
  unfold batch_decode
  rw [hb]
  cases hd : D.decode_header (fresh_demo D pa).bytes (fresh_demo D pa).offset with
  | ok hv p =>
    obtain ⟨hp1, hp2⟩ := hD.header_pos _ _ hv p hd
    simp [fresh_demo] at hp2
    omega
  | needData r l =>
    rw [process_next_chunk_hdr_needData rfl hd]
    refine ⟨rfl, rfl, Or.inl rfl⟩
  | err =>
    rw [process_next_chunk_hdr_err rfl hd]
    refine ⟨rfl, rfl, Or.inl rfl⟩

theorem batch_resume {D : Decoder H F S} (hD : ValidDecoder D) (pa : FPath)
    {c1 c2 : Bytes} (hg : Grows c1 c2)
    (hres : Resumable (batch_decode D pa c1)) :
    ∃ fr2,
      process_next_chunk D { (batch_decode D pa c1).demo with bytes := c2 } =
        { demo := (batch_decode D pa c2).demo, frames := fr2
          reason := (batch_decode D pa c2).reason } ∧
      (batch_decode D pa c2).frames = (batch_decode D pa c1).frames ++ fr2 := by
  have hlen : c1.length ≤ c2.length := hg.length_le
  unfold batch_decode at *
  cases hd : D.decode_header c1 0 with
  | ok hv p =>
    obtain ⟨hp1, hp2⟩ := hD.header_pos c1 0 hv p hd
    have hd1 : D.decode_header
        ({ fresh_demo D pa with bytes := c1 } : OpenDemo H F S).bytes
        ({ fresh_demo D pa with bytes := c1 } : OpenDemo H F S).offset = .ok hv p := hd
    rw [process_next_chunk_hdr_ok rfl hd1] at hres ⊢
    have hd2 : D.decode_header
        ({ fresh_demo D pa with bytes := c2 } : OpenDemo H F S).bytes
        ({ fresh_demo D pa with bytes := c2 } : OpenDemo H F S).offset = .ok hv p :=
      hD.header_grow c1 c2 0 hv p hg hd
    rw [process_next_chunk_hdr_ok rfl hd2]
    dsimp only at hres ⊢
    have hreason : (frame_loop D c1 (8 * c1.length + 1) p
        (D.handle_header D.init hv)).reason = .cleanEnd ∨
        (frame_loop D c1 (8 * c1.length + 1) p
          (D.handle_header D.init hv)).reason = .needData := by
      rcases hres with hres | hres
      · simp at hres
      · have hnr := frame_loop_no_ranOut hD c1 (8 * c1.length + 1) p
          (D.handle_header D.init hv) hp2 (by omega)
        cases hcase : (frame_loop D c1 (8 * c1.length + 1) p
            (D.handle_header D.init hv)).reason with
        | ranOut => exact absurd hcase hnr
        | cleanEnd => exact Or.inl rfl
        | needData => exact Or.inr rfl
        | hardErr => exact absurd hcase hres
    have hrec := frame_loop_resume hD hg (8 * c1.length + 1) p
      (D.handle_header D.init hv) hp2 hreason (8 * c2.length + 1) (by omega)
    have hsome : ({ fresh_demo D pa with
        bytes := c1
        header := some hv
        handler := (frame_loop D c1 (8 * c1.length + 1) p
          (D.handle_header D.init hv)).st
        offset := (frame_loop D c1 (8 * c1.length + 1) p
          (D.handle_header D.init hv)).off } : OpenDemo H F S).header = some hv := rfl
    refine ⟨(frame_loop D c2 (8 * c2.length + 1)
      (frame_loop D c1 (8 * c1.length + 1) p (D.handle_header D.init hv)).off
      (frame_loop D c1 (8 * c1.length + 1) p (D.handle_header D.init hv)).st).frames,
      ?_, ?_⟩
    · rw [process_next_chunk_some rfl]
      dsimp only [fresh_demo]
      rw [hrec]
    · dsimp only [fresh_demo]
      rw [hrec]
  | needData r l =>
    have hd1 : D.decode_header
        ({ fresh_demo D pa with bytes := c1 } : OpenDemo H F S).bytes
        ({ fresh_demo D pa with bytes := c1 } : OpenDemo H F S).offset =
        .needData r l := hd
    rw [process_next_chunk_hdr_needData rfl hd1]
    exact ⟨(process_next_chunk D { fresh_demo D pa with bytes := c2 }).frames,
      rfl, rfl⟩
  | err =>
    have hd1 : D.decode_header
        ({ fresh_demo D pa with bytes := c1 } : OpenDemo H F S).bytes
        ({ fresh_demo D pa with bytes := c1 } : OpenDemo H F S).offset = .err := hd
    rw [process_next_chunk_hdr_err rfl hd1]
    exact ⟨(process_next_chunk D { fresh_demo D pa with bytes := c2 }).frames,
      rfl, rfl⟩

theorem cycle_batch {D : Decoder H F S} (hD : ValidDecoder D) (pa : FPath)
    {c1 c2 : Bytes} (hg : Grows c1 c2)
    (hres : Resumable (batch_decode D pa c1)) :
    ∃ fr2,
      OpenDemo.read_next_bytes D (singleFile pa c2) (batch_decode D pa c1).demo =
        ((batch_decode D pa c2).demo, fr2, none) ∧
      (batch_decode D pa c2).frames = (batch_decode D pa c1).frames ++ fr2 := by
  have hpath : (batch_decode D pa c1).demo.file_path = pa := batch_decode_path D pa c1
  have hbytes : (batch_decode D pa c1).demo.bytes = c1 := batch_decode_bytes D pa c1
  have hfs : singleFile pa c2 (batch_decode D pa c1).demo.file_path = some c2 := by
    rw [hpath]
    simp [singleFile]
  have hlen : c1.length ≤ c2.length := hg.length_le
  by_cases hcase : c2.length = c1.length
  · have hceq : c1 = c2 := hg.eq_of_length hcase
    subst hceq
    refine ⟨[], ?_, by simp⟩
    rw [read_next_bytes_same hfs (by rw [hbytes])]
  · have hlt : (batch_decode D pa c1).demo.bytes.length < c2.length := by
      rw [hbytes]
      omega
    obtain ⟨fr2, h1, h2⟩ := batch_resume hD pa hg hres
    refine ⟨fr2, ?_, h2⟩
    rw [read_next_bytes_growth hfs hlt]
    have hb2 : (batch_decode D pa c1).demo.bytes ++
        c2.drop (batch_decode D pa c1).demo.bytes.length = c2 := by
      rw [hbytes]
      exact hg.append_drop
    rw [show ({ (batch_decode D pa c1).demo with
          bytes := (batch_decode D pa c1).demo.bytes ++
            c2.drop (batch_decode D pa c1).demo.bytes.length } : OpenDemo H F S) =
        { (batch_decode D pa c1).demo with bytes := c2 } from by rw [hb2]]
    rw [h1]

theorem run_batch {D : Decoder H F S} (hD : ValidDecoder D) (pa : FPath) :
    ∀ (cs : List Bytes) (c0 : Bytes) (m : DemoManager H F S),
      GrowthChain (c0 :: cs) →
      (∀ c ∈ cs, Resumable (batch_decode D pa c)) →
      Resumable (batch_decode D pa c0) →
      m.current_demo = some (batch_decode D pa c0).demo →
      (run_timeouts D pa m cs).1.current_demo =
        some (batch_decode D pa (last1 c0 cs)).demo ∧
      (batch_decode D pa (last1 c0 cs)).frames =
        (batch_decode D pa c0).frames ++ (run_timeouts D pa m cs).2 := by
  intro cs
  induction cs with
  | nil =>
    intro c0 m hchain hgood hres0 hm
    exact ⟨hm, by simp [run_timeouts, last1]⟩
  | cons c1 rest ih =>
    intro c0 m hchain hgood hres0 hm
    obtain ⟨hg01, hchain1⟩ := hchain
    obtain ⟨fr1, hcyc, hframes⟩ := cycle_batch hD pa hg01 hres0
    have hstep : demo_loop_step D (singleFile pa c1) m .timeout =
        .next { m with current_demo := some (batch_decode D pa c1).demo } fr1 := by
      show StepRes.next (m.read_next_bytes D (singleFile pa c1)).1
        (m.read_next_bytes D (singleFile pa c1)).2 = _
      rw [manager_read_ok hm (by rw [hcyc])]
      rw [hcyc]
    have hres1 : Resumable (batch_decode D pa c1) := hgood c1 (by simp)
    have hgood1 : ∀ c ∈ rest, Resumable (batch_decode D pa c) := by
      intro c hc
      exact hgood c (by simp [hc])
    have hrec := ih c1 { m with current_demo := some (batch_decode D pa c1).demo }
      hchain1 hgood1 hres1 rfl
    rw [run_timeouts, hstep]
    dsimp only
    refine ⟨hrec.1, ?_⟩
    show (batch_decode D pa (last1 c1 rest)).frames = _
    rw [hrec.2, hframes]
    simp [List.append_assoc]

/-- A small concrete decoder for witnesses: a header occupies 16 bits and
each frame 8 bits; both report `needData` when the buffer is short. -/
def toyDecoder : Decoder Nat Nat Nat where
  decode_header b off :=
    if off + 16 ≤ 8 * b.length then .ok 0 (off + 16)
    else .needData 16 (8 * b.length - off)
  decode_frame b off _st :=
    if off + 8 ≤ 8 * b.length then .frame 7 (off + 8)
    else .needData 8 (8 * b.length - off)
  handle_header s h := s + h + 1
  handle_packet s f := s + f
  init := 0

/-- A decoder that reports a hard decode error on every input. -/
def errDecoder : Decoder Nat Nat Nat where
  decode_header _ _ := .err
  decode_frame _ _ _ := .err
  handle_header s _ := s
  handle_packet s _ := s
  init := 0

/-- A path carrying the capture extension. -/
def paDem : FPath := { pathId := 0, ext := some demExt }

/-- A path with a non-capture extension. -/
def paOther : FPath := { pathId := 1, ext := some 3 }

theorem toyDecoder_valid : ValidDecoder toyDecoder := by
  constructor
  · intro b off h p hd
    simp only [toyDecoder] at hd
    split at hd
    · rename_i hcond
      injection hd with h1 h2
      omega
    · simp at hd
  · intro b off st f p hd
    simp only [toyDecoder] at hd
    split at hd
    · rename_i hcond
      injection hd with h1 h2
      omega
    · simp at hd
  · intro a b off h p hg hd
    have hlen := hg.length_le
    simp only [toyDecoder] at hd ⊢
    split at hd
    · rename_i hcond
      injection hd with h1 h2
      rw [if_pos (by omega), h1, h2]
    · simp at hd
  · intro a b off st f p hg hd
    have hlen := hg.length_le
    simp only [toyDecoder] at hd ⊢
    split at hd
    · rename_i hcond
      injection hd with h1 h2
      rw [if_pos (by omega), h1, h2]
    · simp at hd

theorem step_event_cons (D : Decoder H F S) (fs : FPath → Option Bytes)
    (m : DemoManager H F S) (k : EventKind) (path : FPath) (rest : List FPath) :
    ∃ m2 fr, demo_loop_step D fs m (.event k (path :: rest)) = .next m2 fr := by
  cases k with
  | create =>
    show ∃ m2 fr, (if (path.ext.map fun e => decide (e = demExt)).getD false
      then StepRes.next (m.new_demo D path) []
      else StepRes.next m []) = .next m2 fr
    split
    · exact ⟨_, _, rfl⟩
    · exact ⟨_, _, rfl⟩
  | modifyData =>
    show ∃ m2 fr, (if (m.current_demo_path.map fun p => decide (p = path)).getD false
      then StepRes.next (m.read_next_bytes D fs).1 (m.read_next_bytes D fs).2
      else if (path.ext.map fun e => decide (e = demExt)).getD false
      then StepRes.next ((m.new_demo D path).read_next_bytes D fs).1
        ((m.new_demo D path).read_next_bytes D fs).2
      else StepRes.next m []) = .next m2 fr
    split
    · exact ⟨_, _, rfl⟩
    · split
      · exact ⟨_, _, rfl⟩
      · exact ⟨_, _, rfl⟩
  | otherEvent => exact ⟨m, [], rfl⟩

theorem read_next_bytes_off {D : Decoder H F S} (hD : ValidDecoder D)
    (fs : FPath → Option Bytes) (d : OpenDemo H F S)
    (h : d.offset ≤ 8 * d.bytes.length) :
    d.offset ≤ (OpenDemo.read_next_bytes D fs d).1.offset ∧
    (OpenDemo.read_next_bytes D fs d).1.offset ≤
      8 * (OpenDemo.read_next_bytes D fs d).1.bytes.length := by
  cases hfs : fs d.file_path with
  | none =>
    rw [read_next_bytes_missing hfs]
    exact ⟨Nat.le_refl _, h⟩
  | some c =>
    rcases Nat.lt_trichotomy c.length d.bytes.length with hlt | heq | hgt
    · rw [read_next_bytes_shrunk hfs hlt]
      exact ⟨Nat.le_refl _, h⟩
    · rw [read_next_bytes_same hfs (by omega)]
      exact ⟨Nat.le_refl _, h⟩
    · rw [read_next_bytes_growth hfs hgt]
      have hinv : ({ d with bytes := d.bytes ++ c.drop d.bytes.length } :
          OpenDemo H F S).offset ≤
          8 * ({ d with bytes := d.bytes ++ c.drop d.bytes.length } :
          OpenDemo H F S).bytes.length := by
        dsimp only
        simp only [List.length_append]
        omega
      have hoff := process_next_chunk_off hD _ hinv
      have hbytes := process_next_chunk_bytes D
        ({ d with bytes := d.bytes ++ c.drop d.bytes.length } : OpenDemo H F S)
      refine ⟨hoff.1, ?_⟩
      rw [hbytes]
      exact hoff.2

/-- One read-and-decode cycle applied to a session: for some filesystem
snapshot, `read_next_bytes` takes `d` to `d2`. -/
def CycleStep (D : Decoder H F S) (d d2 : OpenDemo H F S) : Prop :=
  ∃ fs fr e, OpenDemo.read_next_bytes D fs d = (d2, fr, e)

/-- C5: over any sequence of append/decode cycles, the cursor is
non-decreasing and stays within the buffer (bit offsets against the
buffer's bit length), provided it starts within bounds. -/
theorem c5_theorem {D : Decoder H F S} (hD : ValidDecoder D)
    {d d2 : OpenDemo H F S} (hinv : d.offset ≤ 8 * d.bytes.length)
    (h : Relation.ReflTransGen (CycleStep D) d d2) :
    d.offset ≤ d2.offset ∧ d2.offset ≤ 8 * d2.bytes.length := by
  induction h with
  | refl => exact ⟨Nat.le_refl _, hinv⟩
  | tail hab hbc ih =>
    obtain ⟨fs, fr, e, hstep⟩ := hbc
    have hone := read_next_bytes_off hD fs _ ih.2
    rw [hstep] at hone
    exact ⟨Nat.le_trans ih.1 hone.1, hone.2⟩

/-- The session reached from a fresh one after one cycle against a
three-byte file under `toyDecoder`. -/
def c5After : OpenDemo Nat Nat Nat :=
  { file_path := paDem, header := some 0, handler := 8, bytes := [5, 6, 7]
    offset := 24 }

/-- Witness for C5 at a concrete one-cycle run. -/
theorem c5_witness :
    (fresh_demo toyDecoder paDem).offset ≤ c5After.offset ∧
    c5After.offset ≤ 8 * c5After.bytes.length :=
  c5_theorem toyDecoder_valid (by decide)
    (Relation.ReflTransGen.single
      ⟨singleFile paDem [5, 6, 7], [7], none, by decide⟩)

/-- C4: when the stat-observed length is strictly below the buffered
length, the cycle returns the shortened error without mutating the
session, and the manager abandons the session (current becomes `none`)
dispatching nothing. -/
theorem c4_theorem {D : Decoder H F S} {fs : FPath → Option Bytes}
    {m : DemoManager H F S} {d : OpenDemo H F S} {c : Bytes}
    (hcur : m.current_demo = some d) (hfs : fs d.file_path = some c)
    (hlt : c.length < d.bytes.length) :
    OpenDemo.read_next_bytes D fs d = (d, [], some .shortened) ∧
    m.read_next_bytes D fs = ({ m with current_demo := none }, []) := by
  have h1 := read_next_bytes_shrunk (D := D) hfs hlt
  refine ⟨h1, ?_⟩
  rw [manager_read_err hcur (by rw [h1])]
  rw [h1]

/-- A session buffering two bytes, used for the C4 and C7 witnesses. -/
def twoByteDemo : OpenDemo Nat Nat Nat :=
  { file_path := paDem, header := none, handler := 0, bytes := [1, 2], offset := 0 }

/-- Witness for C4: a one-byte file under a two-byte buffer. -/
theorem c4_witness :
    OpenDemo.read_next_bytes toyDecoder (singleFile paDem [1]) twoByteDemo =
      (twoByteDemo, [], some .shortened) ∧
    DemoManager.read_next_bytes
      { previous_demos := [], current_demo := some twoByteDemo }
      toyDecoder (singleFile paDem [1]) =
      ({ previous_demos := [], current_demo := none }, []) :=
  @c4_theorem Nat Nat Nat toyDecoder (singleFile paDem [1])
    { previous_demos := [], current_demo := some twoByteDemo }
    twoByteDemo [1] rfl (by decide) (by decide)

/-- C7: equal stat length and buffered length make the cycle a no-op
returning success, so two cycles with no growth leave the manager (and
the session) unchanged both times. -/
theorem c7_theorem {D : Decoder H F S} {fs : FPath → Option Bytes}
    {m : DemoManager H F S} {d : OpenDemo H F S} {c : Bytes}
    (hcur : m.current_demo = some d) (hfs : fs d.file_path = some c)
    (heq : c.length = d.bytes.length) :
    OpenDemo.read_next_bytes D fs d = (d, [], none) ∧
    m.read_next_bytes D fs = (m, []) ∧
    (m.read_next_bytes D fs).1.read_next_bytes D fs = (m, []) := by
  have h1 := read_next_bytes_same (D := D) hfs heq
  have hmeq : ({ m with current_demo := some d } : DemoManager H F S) = m := by
    cases m with
    | mk prev cur =>
      dsimp only [DemoManager.current_demo] at hcur
      rw [hcur]
  have h2 : m.read_next_bytes D fs = (m, []) := by
    rw [manager_read_ok hcur (by rw [h1]), h1, hmeq]
  refine ⟨h1, h2, ?_⟩
  rw [h2]
  exact h2

/-- Witness for C7: a two-byte file matching a two-byte buffer. -/
theorem c7_witness :
    OpenDemo.read_next_bytes toyDecoder (singleFile paDem [9, 9]) twoByteDemo =
      (twoByteDemo, [], none) ∧
    DemoManager.read_next_bytes
      { previous_demos := [], current_demo := some twoByteDemo }
      toyDecoder (singleFile paDem [9, 9]) =
      ({ previous_demos := [], current_demo := some twoByteDemo }, []) ∧
    (DemoManager.read_next_bytes
      { previous_demos := [], current_demo := some twoByteDemo }
      toyDecoder (singleFile paDem [9, 9])).1.read_next_bytes
      toyDecoder (singleFile paDem [9, 9]) =
      ({ previous_demos := [], current_demo := some twoByteDemo }, []) :=
  @c7_theorem Nat Nat Nat toyDecoder (singleFile paDem [9, 9])
    { previous_demos := [], current_demo := some twoByteDemo }
    twoByteDemo [9, 9] rfl (by decide) (by decide)

/-- C8: `new_demo` retires the current session, if any, unmodified to the
tail of the history and installs a fresh session on the given path with
no header, empty buffer, and zero cursor. -/
theorem c8_theorem (D : Decoder H F S) (m : DemoManager H F S) (pa : FPath) :
    (m.new_demo D pa).previous_demos =
      m.previous_demos ++ m.current_demo.toList ∧
    (m.new_demo D pa).current_demo = some (fresh_demo D pa) := by
  cases hm : m.current_demo with
  | none =>
    unfold DemoManager.new_demo
    rw [hm]
    exact ⟨by simp, rfl⟩
  | some old =>
    unfold DemoManager.new_demo
    rw [hm]
    exact ⟨by simp, rfl⟩

/-- C1 counterexample: a cycle whose header decode is a hard error (not
insufficient data) leaves the manager's current session present — the
error is only logged inside `process_next_chunk` and never reaches
`DemoManager::read_next_bytes`, so the session is not abandoned. -/
theorem c1_counterexample :
    (process_next_chunk errDecoder
      { fresh_demo errDecoder paDem with bytes := [1] }).reason = .hardErr ∧
    (DemoManager.read_next_bytes
      { previous_demos := [], current_demo := some (fresh_demo errDecoder paDem) }
      errDecoder (singleFile paDem [1])).1.current_demo =
      some (process_next_chunk errDecoder
        { fresh_demo errDecoder paDem with bytes := [1] }).demo := by
  decide

/-- C1 (amended): a hard decode error does not abandon the session:
whenever the file is present and has not shrunk (so the cycle reaches the
decode phase) and that chunk pass stops on a hard error, the manager
still holds a current session afterwards — the post-chunk session. -/
theorem c1_theorem {D : Decoder H F S} {fs : FPath → Option Bytes}
    {m : DemoManager H F S} {d : OpenDemo H F S} {c : Bytes}
    (hcur : m.current_demo = some d) (hfs : fs d.file_path = some c)
    (hgrow : d.bytes.length < c.length)
    (_herr : (process_next_chunk D
      { d with bytes := d.bytes ++ c.drop d.bytes.length }).reason = .hardErr) :
    (m.read_next_bytes D fs).1.current_demo =
      some (process_next_chunk D
        { d with bytes := d.bytes ++ c.drop d.bytes.length }).demo := by
  rw [manager_read_ok hcur (by rw [read_next_bytes_growth hfs hgrow])]
  rw [read_next_bytes_growth hfs hgrow]

/-- Witness for the amended C1 at the concrete erroring decoder. -/
theorem c1_witness :
    (DemoManager.read_next_bytes
      { previous_demos := [], current_demo := some (fresh_demo errDecoder paDem) }
      errDecoder (singleFile paDem [1])).1.current_demo =
      some (process_next_chunk errDecoder
        { fresh_demo errDecoder paDem with
          bytes := (fresh_demo errDecoder paDem).bytes ++
            ([1] : Bytes).drop (fresh_demo errDecoder paDem).bytes.length }).demo :=
  @c1_theorem Nat Nat Nat errDecoder (singleFile paDem [1])
    { previous_demos := [], current_demo := some (fresh_demo errDecoder paDem) }
    (fresh_demo errDecoder paDem) [1] rfl (by decide) (by decide) (by decide)

/-- C6: an insufficient-data header decode ends the cycle without error
and without touching cursor or header; completing the header's bytes on
the next append yields the decoded header with the cursor at the
decoder-reported offset and the buffer holding exactly the file bytes. -/
theorem c6_theorem {D : Decoder H F S} {d : OpenDemo H F S} {c1 c2 : Bytes}
    {h : H} {p r1 l1 r2 l2 : Nat}
    (hhdr : d.header = none)
    (hg1 : Grows d.bytes c1) (hlt1 : d.bytes.length < c1.length)
    (hg2 : Grows c1 c2) (hlt2 : c1.length < c2.length)
    (hd1 : D.decode_header c1 d.offset = .needData r1 l1)
    (hd2 : D.decode_header c2 d.offset = .ok h p)
    (hstop : D.decode_frame c2 p (D.handle_header d.handler h) = .done ∨
      D.decode_frame c2 p (D.handle_header d.handler h) = .needData r2 l2) :
    OpenDemo.read_next_bytes D (singleFile d.file_path c1) d =
      ({ d with bytes := c1 }, [], none) ∧
    OpenDemo.read_next_bytes D (singleFile d.file_path c2)
      { d with bytes := c1 } =
      ({ d with
          bytes := c2, header := some h, offset := p,
          handler := D.handle_header d.handler h }, [], none) := by
  constructor
  · have hfs1 : singleFile d.file_path c1 d.file_path = some c1 := by
      simp [singleFile]
    rw [read_next_bytes_growth hfs1 hlt1]
    rw [show ({ d with bytes := d.bytes ++ c1.drop d.bytes.length } :
        OpenDemo H F S) = { d with bytes := c1 } from by rw [hg1.append_drop]]
    rw [process_next_chunk_hdr_needData (d := { d with bytes := c1 }) hhdr hd1]
  · have hfs2 : singleFile d.file_path c2
        ({ d with bytes := c1 } : OpenDemo H F S).file_path = some c2 := by
      simp [singleFile]
    rw [read_next_bytes_growth hfs2 hlt2]
    dsimp only
    rw [hg2.append_drop]
    rw [process_next_chunk_hdr_ok (d := { d with bytes := c2 }) hhdr hd2]
    dsimp only
    rcases hstop with hstop | hstop
    · rw [frame_loop_done (8 * c2.length) hstop]
    · rw [frame_loop_needData (8 * c2.length) hstop]

/-- Witness for C6: the 16-bit toy header split as one byte then two. -/
theorem c6_witness :
    OpenDemo.read_next_bytes toyDecoder
      (singleFile (fresh_demo toyDecoder paDem).file_path [5])
      (fresh_demo toyDecoder paDem) =
      ({ fresh_demo toyDecoder paDem with bytes := [5] }, [], none) ∧
    OpenDemo.read_next_bytes toyDecoder
      (singleFile (fresh_demo toyDecoder paDem).file_path [5, 6])
      { fresh_demo toyDecoder paDem with bytes := [5] } =
      ({ fresh_demo toyDecoder paDem with
          bytes := [5, 6], header := some 0, offset := 16,
          handler := toyDecoder.handle_header (fresh_demo toyDecoder paDem).handler 0 },
       [], none) :=
  @c6_theorem Nat Nat Nat toyDecoder (fresh_demo toyDecoder paDem) [5] [5, 6]
    0 16 16 8 8 0 rfl ⟨[5], rfl⟩ (by decide) ⟨[6], rfl⟩ (by decide)
    (by decide) (by decide) (Or.inr (by decide))

theorem ext_check_iff (path : FPath) :
    ((path.ext.map fun e => decide (e = demExt)).getD false = true) ↔
      path.ext = some demExt := by
  cases path.ext <;> simp

theorem cur_check_iff (m : DemoManager H F S) (path : FPath) :
    ((m.current_demo_path.map fun p => decide (p = path)).getD false = true) ↔
      m.current_demo_path = some path := by
  cases m.current_demo_path <;> simp

/-- C3 counterexample: a signal other than channel disconnection — a
watcher event whose path list is empty — also terminates the driving
loop (it panics on `paths[0]`), so disconnection is not the one and only
terminating condition. -/
theorem c3_counterexample :
    demo_loop_step toyDecoder (singleFile paDem [5])
      (DemoManager.new : DemoManager Nat Nat Nat)
      (.event .modifyData []) = .panicked ∧
    DemoSignal.event .modifyData [] ≠ DemoSignal.disconnected := by
  decide

/-- C3 (amended): per-session errors are contained — every signal
carrying at least one path, and every timeout, leaves the loop running
with an updated manager — and the loop is terminated by channel
disconnection, and also by a watcher event with an empty path list
(which panics). -/
theorem c3_theorem (D : Decoder H F S) (fs : FPath → Option Bytes)
    (m : DemoManager H F S) :
    (∀ k path rest, ∃ m2 fr,
      demo_loop_step D fs m (.event k (path :: rest)) = .next m2 fr) ∧
    (∃ m2 fr, demo_loop_step D fs m .timeout = .next m2 fr) ∧
    demo_loop_step D fs m .disconnected = .panicked ∧
    (∀ k, demo_loop_step D fs m (.event k []) = .panicked) := by
  refine ⟨?_, ⟨_, _, rfl⟩, rfl, fun k => rfl⟩
  intro k path rest
  exact step_event_cons D fs m k path rest

/-- C10: the loop body indexes `event.paths[0]` before inspecting the
event kind, so it is total only for events carrying at least one path:
any event with an empty path list panics whatever its kind, while events
with a path never panic. -/
theorem c10_theorem (D : Decoder H F S) (fs : FPath → Option Bytes)
    (m : DemoManager H F S) :
    (∀ k, demo_loop_step D fs m (.event k []) = .panicked) ∧
    (∀ k path rest, demo_loop_step D fs m (.event k (path :: rest)) ≠ .panicked) := by
  refine ⟨fun k => rfl, ?_⟩
  intro k path rest hcontra
  obtain ⟨m2, fr, he⟩ := step_event_cons D fs m k path rest
  rw [he] at hcontra
  exact StepRes.noConfusion hcontra

/-- C9 counterexample: an event of an unrecognized kind should trigger
no operation, but when its path list is empty the loop body panics
instead of leaving the manager unchanged. -/
theorem c9_counterexample :
    demo_loop_step toyDecoder (singleFile paDem [5])
      (DemoManager.new : DemoManager Nat Nat Nat)
      (.event .otherEvent []) = .panicked ∧
    demo_loop_step toyDecoder (singleFile paDem [5])
      (DemoManager.new : DemoManager Nat Nat Nat)
      (.event .otherEvent []) ≠
      .next (DemoManager.new : DemoManager Nat Nat Nat) [] := by
  decide

/-- C9 (amended): for every received signal carrying at least one path,
the loop applies exactly the specified policy — `Created` with the
capture extension starts a session, data modification on the tracked
path advances, data modification on a different capture-extension path
starts then advances once, `Timeout` advances unconditionally, and any
other event kind is a no-op; an event with an empty path list instead
panics (see C10). -/
theorem c9_theorem (D : Decoder H F S) (fs : FPath → Option Bytes)
    (m : DemoManager H F S) (path : FPath) (rest : List FPath) :
    (path.ext = some demExt →
      demo_loop_step D fs m (.event .create (path :: rest)) =
        .next (m.new_demo D path) []) ∧
    (path.ext ≠ some demExt →
      demo_loop_step D fs m (.event .create (path :: rest)) = .next m []) ∧
    (m.current_demo_path = some path →
      demo_loop_step D fs m (.event .modifyData (path :: rest)) =
        .next (m.read_next_bytes D fs).1 (m.read_next_bytes D fs).2) ∧
    (m.current_demo_path ≠ some path → path.ext = some demExt →
      demo_loop_step D fs m (.event .modifyData (path :: rest)) =
        .next ((m.new_demo D path).read_next_bytes D fs).1
          ((m.new_demo D path).read_next_bytes D fs).2) ∧
    (m.current_demo_path ≠ some path → path.ext ≠ some demExt →
      demo_loop_step D fs m (.event .modifyData (path :: rest)) = .next m []) ∧
    demo_loop_step D fs m (.event .otherEvent (path :: rest)) = .next m [] ∧
    demo_loop_step D fs m .timeout =
      .next (m.read_next_bytes D fs).1 (m.read_next_bytes D fs).2 := by
  refine ⟨?_, ?_, ?_, ?_, ?_, rfl, rfl⟩
  · intro hext
    show (if (path.ext.map fun e => decide (e = demExt)).getD false
      then StepRes.next (m.new_demo D path) []
      else StepRes.next m []) = _
    rw [if_pos ((ext_check_iff path).mpr hext)]
  · intro hext
    show (if (path.ext.map fun e => decide (e = demExt)).getD false
      then StepRes.next (m.new_demo D path) []
      else StepRes.next m []) = _
    rw [if_neg (fun hc => hext ((ext_check_iff path).mp hc))]
  · intro hcur
    show (if (m.current_demo_path.map fun p => decide (p = path)).getD false
      then StepRes.next (m.read_next_bytes D fs).1 (m.read_next_bytes D fs).2
      else if (path.ext.map fun e => decide (e = demExt)).getD false
      then StepRes.next ((m.new_demo D path).read_next_bytes D fs).1
        ((m.new_demo D path).read_next_bytes D fs).2
      else StepRes.next m []) = _
    rw [if_pos ((cur_check_iff m path).mpr hcur)]
  · intro hcur hext
    show (if (m.current_demo_path.map fun p => decide (p = path)).getD false
      then StepRes.next (m.read_next_bytes D fs).1 (m.read_next_bytes D fs).2
      else if (path.ext.map fun e => decide (e = demExt)).getD false
      then StepRes.next ((m.new_demo D path).read_next_bytes D fs).1
        ((m.new_demo D path).read_next_bytes D fs).2
      else StepRes.next m []) = _
    rw [if_neg (fun hc => hcur ((cur_check_iff m path).mp hc)),
      if_pos ((ext_check_iff path).mpr hext)]
  · intro hcur hext
    show (if (m.current_demo_path.map fun p => decide (p = path)).getD false
      then StepRes.next (m.read_next_bytes D fs).1 (m.read_next_bytes D fs).2
      else if (path.ext.map fun e => decide (e = demExt)).getD false
      then StepRes.next ((m.new_demo D path).read_next_bytes D fs).1
        ((m.new_demo D path).read_next_bytes D fs).2
      else StepRes.next m []) = _
    rw [if_neg (fun hc => hcur ((cur_check_iff m path).mp hc)),
      if_neg (fun hc => hext ((ext_check_iff path).mp hc))]

/-- Witness for the amended C9: two concrete policy cases. -/
theorem c9_witness :
    demo_loop_step toyDecoder (singleFile paDem [5])
      (DemoManager.new : DemoManager Nat Nat Nat) (.event .create [paDem]) =
      .next ((DemoManager.new : DemoManager Nat Nat Nat).new_demo toyDecoder paDem) [] ∧
    demo_loop_step toyDecoder (singleFile paDem [5])
      (DemoManager.new : DemoManager Nat Nat Nat) (.event .create [paOther]) =
      .next (DemoManager.new : DemoManager Nat Nat Nat) [] :=
  ⟨(c9_theorem toyDecoder (singleFile paDem [5]) DemoManager.new paDem []).1 rfl,
   (c9_theorem toyDecoder (singleFile paDem [5]) DemoManager.new paOther []).2.1
     (by decide)⟩

/-- C2 counterexample: with notification delivery entirely suppressed
(only `Timeout` signals), a capture file that appears with a decodable
header and one complete frame is never detected: repeated timeouts from
a manager with no current session decode and dispatch nothing, while the
file's complete frames are nonempty. -/
theorem c2_counterexample :
    run_timeouts toyDecoder paDem (DemoManager.new : DemoManager Nat Nat Nat)
      [[5, 6, 7], [5, 6, 7], [5, 6, 7]] =
      ((DemoManager.new : DemoManager Nat Nat Nat), []) ∧
    (batch_decode toyDecoder paDem [5, 6, 7]).frames = [7] := by
  decide

/-- C2 (amended): once a session has been started on the capture file,
`Timeout` signals alone suffice: over any append-only growth trace of the
file on which no snapshot hard-errors, the timeout-driven cycles leave
the session exactly in the batch-decode state of the final contents, and
the frames dispatched over the whole run are exactly the complete frames
of the final contents. -/
theorem c2_theorem {D : Decoder H F S} (hD : ValidDecoder D) (pa : FPath)
    (cs : List Bytes) (hchain : GrowthChain ([] :: cs))
    (hgood : ∀ c ∈ cs, Resumable (batch_decode D pa c)) :
    (run_timeouts D pa ((DemoManager.new).new_demo D pa) cs).1.current_demo =
      some (batch_decode D pa (last1 [] cs)).demo ∧
    (batch_decode D pa (last1 [] cs)).frames =
      (run_timeouts D pa ((DemoManager.new).new_demo D pa) cs).2 := by
  obtain ⟨hdemo, hframes, hres⟩ := batch_nil hD pa
  have hm : ((DemoManager.new : DemoManager H F S).new_demo D pa).current_demo =
      some (batch_decode D pa []).demo := by
    rw [hdemo]
    rfl
  have hrun := run_batch hD pa cs [] _ hchain hgood hres hm
  refine ⟨hrun.1, ?_⟩
  rw [hrun.2, hframes]
  simp

/-- Witness for the amended C2: the file grows from one byte (header
still incomplete) to three (header plus one complete frame). -/
theorem c2_witness :
    (run_timeouts toyDecoder paDem
      ((DemoManager.new : DemoManager Nat Nat Nat).new_demo toyDecoder paDem)
      [[5], [5, 6, 7]]).1.current_demo =
      some (batch_decode toyDecoder paDem (last1 [] [[5], [5, 6, 7]])).demo ∧
    (batch_decode toyDecoder paDem (last1 [] [[5], [5, 6, 7]])).frames =
      (run_timeouts toyDecoder paDem
        ((DemoManager.new : DemoManager Nat Nat Nat).new_demo toyDecoder paDem)
        [[5], [5, 6, 7]]).2 :=
  c2_theorem toyDecoder_valid paDem [[5], [5, 6, 7]]
    ⟨⟨[5], rfl⟩, ⟨[6, 7], rfl⟩, trivial⟩ (by decide)

end DemoSpec
